import Mathlib

/-!
Verification of the swarm-plot layout core of the Stock-Market-Visualization-Tool.

The definitions below are a shallow embedding of the `StockSwarmPlot` React
component (the eager pre-bake layout pass, its d3 scales and forces, and the
playback scheduler).  JavaScript numbers are modelled as `ℚ`; `undefined` as
`Option`; the JS `x || d` idiom on numbers as `jsNumOr`; JS `Map` objects as
association lists looked up with `List.lookup`.
-/

namespace StockSwarm

/-- Chart margins, from `const margin = { top: 80, right: 350, bottom: 140, left: 150 }`. -/
def marginTop : ℚ := 80

def marginRight : ℚ := 350

def marginBottom : ℚ := 140

def marginLeft : ℚ := 150

/-- `width = Math.max(clientWidth, 1500) - margin.left - margin.right`. -/
def widthOf (clientWidth : ℚ) : ℚ := max clientWidth 1500 - marginLeft - marginRight

/-- `height = 800 - margin.top - margin.bottom`. -/
def height : ℚ := 800 - marginTop - marginBottom

/-- The pre-declared ordered sector set `SP500_SECTORS`. -/
def SP500_SECTORS : List String :=
  ["Information Technology",
   "Financials",
   "Health Care",
   "Consumer Discretionary",
   "Communication Services",
   "Industrials",
   "Consumer Staples",
   "Energy",
   "Utilities",
   "Real Estate",
   "Materials"]

/-- JavaScript `v || dflt` on an optional number: `undefined`, `NaN` and `0` are falsy
(for `ℚ` values only `0` is). -/
def jsNumOr (v : Option ℚ) (dflt : ℚ) : ℚ :=
  match v with
  | none => dflt
  | some x => if x = 0 then dflt else x

/-- JavaScript `s || dflt` on a string: the empty string is the falsy case. -/
def jsStrOr (s dflt : String) : String := if s = "" then dflt else s

/-- d3's `normalize(a, b)` for continuous scales: `b := b - a;
return b ? x => (x - a) / b : constant(0.5)` — a collapsed domain yields the
constant `1/2`, which is what makes degenerate domains safe. -/
def d3Normalize (a b x : ℚ) : ℚ := if b - a = 0 then 1 / 2 else (x - a) / (b - a)

/-- d3's numeric interpolator between range endpoints `a` and `b`. -/
def d3Interpolate (a b t : ℚ) : ℚ := a + (b - a) * t

/-- `d3.scaleLinear().domain([d0, d1]).range([r0, r1])` applied to `x`
(no `.clamp(true)` appears in the source). -/
def d3ScaleLinear (d0 d1 r0 r1 x : ℚ) : ℚ := d3Interpolate r0 r1 (d3Normalize d0 d1 x)

/-- A d3 power scale (`d3.scaleSqrt` is the exponent-½ instance): domain values go
through `transform` and the transformed domain is normalized.  The square-root
transform itself is irrational, so it is kept as a parameter; every theorem
below that uses `d3ScalePow` holds for an arbitrary `transform`. -/
def d3ScalePow (transform : ℚ → ℚ) (d0 d1 r0 r1 x : ℚ) : ℚ :=
  d3Interpolate r0 r1 (d3Normalize (transform d0) (transform d1) (transform x))

/-- `d3.scalePoint().domain(domain).range([r0, r1]).padding(padding)`:
a band scale with inner padding 1 and alignment ½; members of the domain map to
`start + step * i`, non-members to `undefined`. -/
def d3ScalePoint (domain : List String) (r0 r1 padding : ℚ) (s : String) : Option ℚ :=
  let n : ℚ := domain.length
  let step := (r1 - r0) / max 1 (n - 1 + padding * 2)
  let start := r0 + (r1 - r0 - step * (n - 1)) * (1 / 2)
  (domain.findIdx? (fun x => x = s)).map (fun i => start + step * (i : ℚ))

/-- The vertical scale `yScale = d3.scaleLinear().domain([-20, 20]).range([height, 0])`. -/
def yScale (v : ℚ) : ℚ := d3ScaleLinear (-20) 20 height 0 v

/-- The horizontal sector scale
`xScale = d3.scalePoint().domain(SP500_SECTORS).range([0, width]).padding(0.9)`. -/
def xScale (clientWidth : ℚ) (s : String) : Option ℚ :=
  d3ScalePoint SP500_SECTORS 0 (widthOf clientWidth) (9 / 10) s

/-- The x-force target `xScale(d.sector) || width / 2` from the `forceX` callback. -/
def forceXTarget (clientWidth : ℚ) (sector : String) : ℚ :=
  jsNumOr (xScale clientWidth sector) (widthOf clientWidth / 2)

/-- The y-force target `yScale(d.percentChange)` from the `forceY` callback. -/
def forceYTarget (percentChange : ℚ) : ℚ := yScale percentChange

/-- `d3.extent(l)`: the (min, max) pair of a list, `undefined` on the empty list. -/
def d3Extent : List ℚ → Option (ℚ × ℚ)
  | [] => none
  | x :: xs => some (xs.foldl (fun p v => (min p.1 v, max p.2 v)) (x, x))

/-- The per-snapshot radius scale
`d3.scaleSqrt().domain(d3.extent(snapshotData, d => d.marketCap || 0)).range([3, 25])`;
`marketCaps` is the list of `d.marketCap || 0` values of the snapshot. -/
def sizeScale (transform : ℚ → ℚ) (marketCaps : List ℚ) (x : ℚ) : Option ℚ :=
  (d3Extent marketCaps).map (fun p => d3ScalePow transform p.1 p.2 3 25 x)

/-- One input stock as consumed by the snapshot-building loop: its symbol, name,
sector and the number of price data points (`priceData.length`); the loop's only
skip is `if (!stock.priceData || !stock.priceData.length) return`. -/
structure InputStock where
  symbol : String
  name : String
  sector : String
  marketCap : ℚ
  priceDataLen : Nat
deriving Repr, DecidableEq

/-- Projection of the snapshot-building loop to membership and category: one
record is pushed per input stock with non-empty `priceData` (nothing else is
ever skipped), carrying `sector: stock.sector || 'Unknown'`; stocks are never
dropped on account of their sector. -/
def snapshotEntities (stocks : List InputStock) : List (String × String) :=
  (stocks.filter (fun st => decide (0 < st.priceDataLen))).map
    (fun st => (st.symbol, jsStrOr st.sector "Unknown"))

/-! ### Playback scheduler -/

/-- `frameDuration = 2500` — 2.5 seconds between frames. -/
def frameDuration : ℚ := 2500

/-- The index advance inside `updateFrame`:
`const next = prev + 1; if (next >= data.length) return 0; return next;`. -/
def advanceIndex (dataLength prev : ℕ) : ℕ :=
  let next := prev + 1
  if dataLength ≤ next then 0 else next

/-- One call of the `requestAnimationFrame` callback `updateFrame`: given the
elapsed-time baseline `lastFrameTime` and the callback `timestamp`, it advances
the index and resets the baseline if `elapsed >= frameDuration`, and otherwise
leaves both untouched.  Returns the new `(currentTimeIndex, lastFrameTime)`. -/
def updateFrame (dataLength : ℕ) (lastFrameTime timestamp : ℚ) (current : ℕ) :
    ℕ × ℚ :=
  if frameDuration ≤ timestamp - lastFrameTime then
    (advanceIndex dataLength current, timestamp)
  else (current, lastFrameTime)

/-- The playback state held by the component:
`currentTimeIndex`, `isPlaying`, and the scheduler's elapsed-time baseline. -/
structure PlaybackState where
  currentTimeIndex : ℕ
  isPlaying : Bool
  lastFrameTime : ℚ
deriving Repr, DecidableEq

/-- The slider drag handler:
`if (index !== currentTimeIndex) { setCurrentTimeIndex(index); if (isPlaying) setIsPlaying(false); }`. -/
def sliderDrag (index : ℕ) (s : PlaybackState) : PlaybackState :=
  if index ≠ s.currentTimeIndex then
    { s with currentTimeIndex := index,
             isPlaying := if s.isPlaying then false else s.isPlaying }
  else s

/-- One scheduler tick of the auto-play effect: the animation callback only
runs (and only re-arms itself) while `isPlaying` is true — when paused, the
effect's cleanup has cancelled the frame, so the state is untouched. -/
def schedulerTick (dataLength : ℕ) (timestamp : ℚ) (s : PlaybackState) :
    PlaybackState :=
  if s.isPlaying then
    let r := updateFrame dataLength s.lastFrameTime timestamp s.currentTimeIndex
    { s with currentTimeIndex := r.1, lastFrameTime := r.2 }
  else s

/-- A run of scheduler ticks at the given timestamps. -/
def runTicks (dataLength : ℕ) (timestamps : List ℚ) (s : PlaybackState) :
    PlaybackState :=
  timestamps.foldl (fun st ts => schedulerTick dataLength ts st) s

/-! ### The custom sector-cluster force -/

/-- A simulation node as seen by the cluster force: position components are
defined once the simulation has initialized them; velocities may still be
`undefined` (the force body guards with `d.vx = d.vx || 0`). -/
structure SimStock where
  symbol : String
  sector : String
  x : ℚ
  y : ℚ
  vx : Option ℚ
  vy : Option ℚ
deriving Repr, DecidableEq

/-- `d3.mean`: the arithmetic mean of a list, `undefined` on the empty list. -/
def d3Mean (l : List ℚ) : Option ℚ :=
  match l with
  | [] => none
  | _ => some (l.sum / l.length)

/-- The body of the custom cluster force for one node `d`: the node's sector
group is collected (`d3.group(...).get(sector) || []` keeps exactly the nodes
whose sector equals `d`'s, in order, i.e. a filter); groups of at most one
member are skipped (`if (sectorPoints.length <= 1) return`); otherwise the
velocity is nudged towards the group centroid with strength `0.15 * alpha`.
The force only writes `vx`/`vy` and reads `x`/`y`, so the in-place JS loop is
equivalent to this per-node function over the unmodified node list. -/
def clusterForceStep (alpha : ℚ) (pts : List SimStock) (d : SimStock) : SimStock :=
  let sectorPoints := pts.filter (fun p => p.sector == d.sector)
  if sectorPoints.length ≤ 1 then d
  else
    let cx := jsNumOr (d3Mean (sectorPoints.map (fun p => p.x))) 0
    let cy := jsNumOr (d3Mean (sectorPoints.map (fun p => p.y))) 0
    let strength := (15 / 100) * alpha
    { d with vx := some (jsNumOr d.vx 0 + (cx - d.x) * strength),
             vy := some (jsNumOr d.vy 0 + (cy - d.y) * strength) }

/-- The whole cluster force (`clonedData.forEach(d => ...)`). -/
def clusterForce (alpha : ℚ) (pts : List SimStock) : List SimStock :=
  pts.map (clusterForceStep alpha pts)
/-! ### The fixed-budget convergence loop -/

/-- `.alphaDecay(0.01)` from the simulation setup. -/
def alphaDecaySetting : ℚ := 1 / 100

/-- `.alpha(0.8)` from the simulation setup. -/
def initialAlphaSetting : ℚ := 4 / 5

/-- The iteration budget of `for (let i = 0; i < 150; i++) simulation.tick();`. -/
def simulationIterationCount : ℕ := 150

/-- The simulation state: the energy parameter `alpha` plus the node data
(of abstract type `P`, since the claims below concern only the loop). -/
structure SimState (P : Type) where
  alpha : ℚ
  points : P

/-- One `simulation.tick()`: d3 first updates
`alpha += (alphaTarget - alpha) * alphaDecay` (with the default
`alphaTarget = 0`), then applies every force and the velocity integration with
the new alpha; the forces and the integration are abstracted as `F`. -/
def d3SimTick {P : Type} (F : ℚ → P → P) (s : SimState P) : SimState P :=
  let a := s.alpha + (0 - s.alpha) * alphaDecaySetting
  { alpha := a, points := F a s.points }

/-- The manual convergence loop with an explicit iteration budget; the second
component counts the ticks that were actually executed. -/
def simulationLoop {P : Type} (F : ℚ → P → P) : ℕ → SimState P → SimState P × ℕ
  | 0, s => (s, 0)
  | n + 1, s =>
    let r := simulationLoop F n (d3SimTick F s)
    (r.1, r.2 + 1)

/-- The per-snapshot simulation run: alpha starts at the configured 0.8 and
the loop runs the fixed 150-iteration budget. -/
def runSnapshotSimulation {P : Type} (F : ℚ → P → P) (pts : P) :
    SimState P × ℕ :=
  simulationLoop F simulationIterationCount
    { alpha := initialAlphaSetting, points := pts }

/-! ### The composite continuity-cache key

The cache key is the template string `` `${timeIndex}-${d.symbol}` ``.  Keys
built from distinct time indices are distinct strings, because the decimal
rendering of the time index contains no dash and is injective; the lemmas
below establish this from first principles about `Nat.repr`. -/

/-- The composite key `` `${timeIndex}-${d.symbol}` ``. -/
def compositeKey (timeIndex : ℕ) (symbol : String) : String :=
  Nat.repr timeIndex ++ "-" ++ symbol

/-- Reading a decimal digit list back as a number (left fold). -/
def decDecode (l : List Char) : ℕ :=
  l.foldl (fun a c => 10 * a + (c.toNat - 48)) 0

/-! ### The eager pre-bake layout pass -/

/-- A resting position stored in the continuity cache. -/
abbrev CachePoint := ℚ × ℚ

/-- The continuity cache `positionMap = new Map<string, {x, y}>()`, modelled
as an association list: `set` prepends a binding and `List.lookup` returns
the most recent one. -/
abbrev PositionMap := List (String × CachePoint)

/-- The snapshot-record fields the layout pass reads or writes. -/
structure StockRec where
  symbol : String
  sector : String
  marketCap : ℚ
  percentChange : ℚ
  _timeIndex : ℕ
deriving Repr, DecidableEq

/-- A cloned node handed to the simulation: the deep-cloned record
(`JSON.parse(JSON.stringify(d))` is the identity on these plain value
records) together with its seed position
(`x: existingPos?.x, y: existingPos?.y`, `none` when the lookup missed). -/
structure Seeded where
  stock : StockRec
  x : Option ℚ
  y : Option ℚ
deriving Repr, DecidableEq

/-- The cloning step of the pass: each record of the snapshot is cloned and
seeded from the cache entry at the composite key of the snapshot's own time
index (`positionMap.get(compositeKey)`). -/
def seedClone (m : PositionMap) (timeIndex : ℕ) (snap : List StockRec) :
    List Seeded :=
  snap.map fun d =>
    let existingPos := m.lookup (compositeKey timeIndex d.symbol)
    { stock := d, x := existingPos.map Prod.fst,
      y := existingPos.map Prod.snd }

/-- The force engine abstracted: from the seeded nodes of one snapshot to
their resting positions after the 150-tick run.  The claims about the pass
hold for every engine, so no theorem below depends on its internals. -/
abbrev Engine := List Seeded → List CachePoint

/-- The write-back after convergence:
`positionMap.set(compositeKey, { x: d.x, y: d.y })` for each node, keyed by
the snapshot's own time index. -/
def writeBack (timeIndex : ℕ) (seeded : List Seeded) (out : List CachePoint)
    (m : PositionMap) : PositionMap :=
  (seeded.zip out).foldl
    (fun acc p => (compositeKey timeIndex p.1.stock.symbol, p.2) :: acc) m

/-- `stock._timeIndex = timeIndex` applied to every record of a snapshot —
the only write the pass performs on its input arrays. -/
def stampTimeIndex (timeIndex : ℕ) (snap : List StockRec) : List StockRec :=
  snap.map fun d => { d with _timeIndex := timeIndex }

/-- The input data as the pass's `forEach` stamping leaves it. -/
def stampAll : ℕ → List (List StockRec) → List (List StockRec)
  | _, [] => []
  | t, snap :: rest => stampTimeIndex t snap :: stampAll (t + 1) rest

/-- The running state of the pre-bake pass: the continuity cache, the
per-time-index results (`allSnapshotData`), and — for the theorems — a log of
the seeded input each snapshot's simulation actually received. -/
structure PassState where
  positionMap : PositionMap
  positioned : List (ℕ × List CachePoint)
  seedsLog : List (ℕ × List Seeded)
deriving Repr, DecidableEq

/-- The body of `data.forEach((snapshotData, timeIndex) => ...)`: stamp the
time index, seed-clone from the cache, run the simulation, store the final
positions in both the per-time map and the continuity cache. -/
def prebakeStep (engine : Engine) (st : PassState) (timeIndex : ℕ)
    (snap : List StockRec) : PassState :=
  let stamped := stampTimeIndex timeIndex snap
  let seeded := seedClone st.positionMap timeIndex stamped
  let out := engine seeded
  { positionMap := writeBack timeIndex seeded out st.positionMap,
    positioned := (timeIndex, out) :: st.positioned,
    seedsLog := (timeIndex, seeded) :: st.seedsLog }

/-- The per-snapshot loop of the pass, with the running time index. -/
def prebakeAux (engine : Engine) : ℕ → PassState → List (List StockRec) →
    PassState
  | _, st, [] => st
  | t, st, snap :: rest => prebakeAux engine (t + 1) (prebakeStep engine st t snap) rest

/-- The whole `useMemo` pre-bake computation: a fresh empty cache and result
map, then every snapshot in time order. -/
def prebakePass (engine : Engine) (data : List (List StockRec)) : PassState :=
  prebakeAux engine 0 { positionMap := [], positioned := [], seedsLog := [] } data

/-- Every key of the cache was written with a time index below `t`. -/
def mapTimesBelow (t : ℕ) (m : PositionMap) : Prop :=
  ∀ e ∈ m, ∃ t' sym, e.1 = compositeKey t' sym ∧ t' < t

/-- The seeded nodes every snapshot actually receives inside one pass: the
stamped records with `undefined` start positions. -/
def freshSeeds (timeIndex : ℕ) (snap : List StockRec) : List Seeded :=
  (stampTimeIndex timeIndex snap).map (fun d => { stock := d, x := none, y := none })


/-! ## Theorems -/

section ScaleLemmas

theorem jsNumOr_some (x d : ℚ) : jsNumOr (some x) d = if x = 0 then d else x := rfl

theorem height_eq : height = 580 := by norm_num [height, marginTop, marginBottom]

theorem yScale_formula (v : ℚ) : yScale v = 290 - (29 / 2) * v := by
  unfold yScale d3ScaleLinear d3Normalize d3Interpolate height marginTop marginBottom
  norm_num
  ring

/-- A `findIdx?` miss for predicates false everywhere on the list. -/
theorem findIdx?_none_of_forall {α : Type} (p : α → Bool) :
    ∀ l : List α, (∀ x ∈ l, p x = false) → l.findIdx? p = none := by
  intro l
  induction l with
  | nil => intro _; rfl
  | cons a t ih =>
    intro h
    have ha : p a = false := h a (List.mem_cons_self a t)
    simp [List.findIdx?, ha]
    have ht : ∀ x ∈ t, p x = false := fun x hx => h x (List.mem_cons_of_mem a hx)
    have := ih ht
    simpa [List.findIdx?] using this

theorem xScale_not_member (clientWidth : ℚ) (s : String) (h : s ∉ SP500_SECTORS) :
    xScale clientWidth s = none := by
  unfold xScale d3ScalePoint
  have : SP500_SECTORS.findIdx? (fun x => x = s) = none := by
    apply findIdx?_none_of_forall
    intro x hx
    simp only [decide_eq_false_iff_not]
    intro hxs
    exact h (hxs ▸ hx)
  simp [this]

end ScaleLemmas

/-! ### Claim C2: the vertical mapping is linear but not clamped -/

/-- C2 counterexample: the claim says values outside the −20..20 domain are
mapped to the domain-edge pixel positions and never extrapolated beyond the
vertical pixel range `[0, height]`.  The source builds `yScale` with no
`.clamp(true)`, so the input 40 is mapped to −290, beyond the vertical range. -/
theorem yScale_not_clamped_counterexample :
    yScale 40 = -290 ∧ ¬ (0 ≤ yScale 40 ∧ yScale 40 ≤ height) := by
  constructor
  · rw [yScale_formula]; norm_num
  · rw [yScale_formula, height_eq]; norm_num

/-- C2 amended: `yScale` is the unclamped linear map sending −20 to `height`
and 20 to 0; values outside the −20..20 domain are linearly extrapolated past
the vertical pixel range (above 20 the output drops below 0, below −20 it
exceeds `height`). -/
theorem yScale_linear_unclamped (v : ℚ) :
    yScale v = 290 - (29 / 2) * v ∧
    yScale (-20) = height ∧ yScale 20 = 0 ∧
    (20 < v → yScale v < 0) ∧ (v < -20 → height < yScale v) := by
  refine ⟨yScale_formula v, ?_, ?_, ?_, ?_⟩
  · rw [yScale_formula, height_eq]; norm_num
  · rw [yScale_formula]; norm_num
  · intro hv; rw [yScale_formula]; nlinarith
  · intro hv; rw [yScale_formula, height_eq]; nlinarith

/-- C2 amended witness: instantiated at the out-of-domain value 40. -/
theorem yScale_linear_unclamped_witness : yScale 40 < 0 :=
  (yScale_linear_unclamped 40).2.2.2.1 (by norm_num)

/-! ### Claim C3: unrecognized categories are kept, not dropped -/

/-- C3 counterexample: the claim says an entity whose category is not in
`SP500_SECTORS` is dropped from the processed snapshot.  A stock with sector
"Bogus" and one price point is kept in the snapshot (with its unrecognized
sector), and its x-force target falls back to the horizontal centre
`width / 2 = 500` rather than the entity being removed. -/
theorem unknown_sector_kept_counterexample :
    snapshotEntities
        [{ symbol := "TEST", name := "Test Corp", sector := "Bogus",
           marketCap := 100, priceDataLen := 1 }] = [("TEST", "Bogus")] ∧
    ("Bogus" ∉ SP500_SECTORS) ∧
    forceXTarget 1500 "Bogus" = 500 := by
  refine ⟨by decide, by decide, ?_⟩
  have hns : "Bogus" ∉ SP500_SECTORS := by decide
  unfold forceXTarget
  rw [xScale_not_member 1500 "Bogus" hns]
  norm_num [jsNumOr, widthOf, marginLeft, marginRight]

/-- C3 amended: entities whose category is outside the pre-declared sector set
are not dropped: every input stock with non-empty price data contributes a
record to the processed snapshot (an empty sector string defaults to
"Unknown"), and when the resulting sector is not in `SP500_SECTORS` the
horizontal force target falls back to the centre `width / 2`; no entity is
removed or skipped because of its category. -/
theorem unknown_sector_fallback (clientWidth : ℚ) (stocks : List InputStock)
    (st : InputStock) (hmem : st ∈ stocks) (hpd : 0 < st.priceDataLen)
    (hsec : jsStrOr st.sector "Unknown" ∉ SP500_SECTORS) :
    (st.symbol, jsStrOr st.sector "Unknown") ∈ snapshotEntities stocks ∧
    forceXTarget clientWidth (jsStrOr st.sector "Unknown") = widthOf clientWidth / 2 := by
  constructor
  · unfold snapshotEntities
    apply List.mem_map_of_mem
    rw [List.mem_filter]
    exact ⟨hmem, by simpa using hpd⟩
  · unfold forceXTarget
    rw [xScale_not_member clientWidth _ hsec]
    rfl

/-- C3 amended witness: the "Bogus"-sector stock from the counterexample input. -/
theorem unknown_sector_fallback_witness :
    ("TEST", jsStrOr "Bogus" "Unknown") ∈
      snapshotEntities
        [{ symbol := "TEST", name := "Test Corp", sector := "Bogus",
           marketCap := 100, priceDataLen := 1 }] :=
  (unknown_sector_fallback 1500
      [{ symbol := "TEST", name := "Test Corp", sector := "Bogus",
         marketCap := 100, priceDataLen := 1 }]
      { symbol := "TEST", name := "Test Corp", sector := "Bogus",
        marketCap := 100, priceDataLen := 1 }
      (by decide) (by decide) (by decide)).1

/-! ### Claim C5: degenerate radius domain yields the range midpoint -/

/-- All-equal lists have a degenerate extent. -/
theorem d3Extent_const (m : ℚ) :
    ∀ caps : List ℚ, caps ≠ [] → (∀ c ∈ caps, c = m) → d3Extent caps = some (m, m) := by
  intro caps
  match caps with
  | [] => intro h; exact absurd rfl h
  | x :: xs =>
    intro _ hall
    have hx : x = m := hall x (List.mem_cons_self x xs)
    subst hx
    have key : ∀ ys : List ℚ, (∀ c ∈ ys, c = x) →
        ys.foldl (fun p v => (min p.1 v, max p.2 v)) (x, x) = (x, x) := by
      intro ys
      induction ys with
      | nil => intro _; rfl
      | cons y t ih =>
        intro h
        have hy : y = x := h y (List.mem_cons_self y t)
        subst hy
        simp only [List.foldl, min_self, max_self]
        exact ih (fun c hc => h c (List.mem_cons_of_mem y hc))
    show some (xs.foldl (fun p v => (min p.1 v, max p.2 v)) (x, x)) = some (x, x)
    rw [key xs (fun c hc => hall c (List.mem_cons_of_mem x hc))]

/-- C5: when every entity of a snapshot carries the same magnitude the radius
scale's domain collapses to a point, and `sizeScale` still returns the defined
midpoint `(3 + 25) / 2 = 14` of the 3..25 pixel range — d3's `normalize`
returns the constant ½ on a collapsed domain instead of dividing by zero —
whatever the (square-root) transform and the queried value are. -/
theorem size_degenerate_domain_midpoint (transform : ℚ → ℚ) (caps : List ℚ)
    (m x : ℚ) (hne : caps ≠ []) (hall : ∀ c ∈ caps, c = m) :
    sizeScale transform caps x = some 14 := by
  unfold sizeScale
  rw [d3Extent_const m caps hne hall]
  show some (d3ScalePow transform m m 3 25 x) = some 14
  unfold d3ScalePow d3Normalize d3Interpolate
  norm_num

/-- C5 witness: a two-stock snapshot whose market caps are both 100. -/
theorem size_degenerate_domain_midpoint_witness :
    sizeScale (fun q => q) [100, 100] 100 = some 14 :=
  size_degenerate_domain_midpoint (fun q => q) [100, 100] 100 100
    (by decide) (by decide)

/-! ### Claim C7: playback wrap -/

/-- C7: with `n ≥ 1` snapshots and an elapsed time of at least the fixed
`frameDuration = 2500` ms, a scheduler advance at the last index `n − 1` yields
index 0, and at any index `k` below `n − 1` yields `k + 1`. -/
theorem playback_wrap_advance (n k : ℕ) (lastT ts : ℚ) (hn : 1 ≤ n)
    (helapsed : frameDuration ≤ ts - lastT) :
    (updateFrame n lastT ts (n - 1)).1 = 0 ∧
    (k < n - 1 → (updateFrame n lastT ts k).1 = k + 1) ∧
    frameDuration = 2500 := by
  refine ⟨?_, ?_, rfl⟩
  · unfold updateFrame advanceIndex
    rw [if_pos helapsed]
    have : n ≤ n - 1 + 1 := by omega
    simp [this]
  · intro hk
    unfold updateFrame advanceIndex
    rw [if_pos helapsed]
    have : ¬ n ≤ k + 1 := by omega
    simp [this]

/-- C7 witness: three snapshots, a tick 2500 ms after the baseline, at the last
index 2 and at index 1. -/
theorem playback_wrap_advance_witness :
    (updateFrame 3 0 2500 (3 - 1)).1 = 0 ∧ (updateFrame 3 0 2500 1).1 = 2 := by
  have h := playback_wrap_advance 3 1 0 2500 (by norm_num)
    (by norm_num [frameDuration])
  exact ⟨h.1, h.2.1 (by norm_num)⟩

/-! ### Claim C8: scrubbing while playing pauses playback -/

/-- C8: manually dragging the slider to an index `k` different from the current
one while playing sets the index to `k` and stops playback, and afterwards no
sequence of scheduler ticks — at any timestamps — changes the index (or
resumes playback) until play is triggered again. -/
theorem scrub_pauses_playback (s : PlaybackState) (k : ℕ) (dataLength : ℕ)
    (timestamps : List ℚ) (hplay : s.isPlaying = true)
    (hk : k ≠ s.currentTimeIndex) :
    (sliderDrag k s).currentTimeIndex = k ∧
    (sliderDrag k s).isPlaying = false ∧
    runTicks dataLength timestamps (sliderDrag k s) = sliderDrag k s := by
  have hdrag : sliderDrag k s =
      { s with currentTimeIndex := k, isPlaying := false } := by
    unfold sliderDrag
    rw [if_pos hk, hplay]
    simp
  refine ⟨by rw [hdrag], by rw [hdrag], ?_⟩
  rw [hdrag]
  have paused : ∀ t : List ℚ, ∀ st : PlaybackState, st.isPlaying = false →
      runTicks dataLength t st = st := by
    intro t
    induction t with
    | nil => intro st _; rfl
    | cons ts rest ih =>
      intro st hst
      unfold runTicks
      simp only [List.foldl]
      have hstep : schedulerTick dataLength ts st = st := by
        unfold schedulerTick
        rw [hst]
        simp
      rw [hstep]
      exact ih st hst
  exact paused timestamps _ rfl

/-- C8 witness: scrubbing from index 0 to 2 while playing, then three ticks
each 10000 ms apart: the state stays paused at index 2. -/
theorem scrub_pauses_playback_witness :
    runTicks 5 [10000, 20000, 30000]
        (sliderDrag 2 { currentTimeIndex := 0, isPlaying := true,
                        lastFrameTime := 0 }) =
      sliderDrag 2 { currentTimeIndex := 0, isPlaying := true,
                     lastFrameTime := 0 } :=
  (scrub_pauses_playback
      { currentTimeIndex := 0, isPlaying := true, lastFrameTime := 0 }
      2 5 [10000, 20000, 30000] rfl (by decide)).2.2


theorem jsNumOr_zero_default (v : ℚ) : jsNumOr (some v) 0 = v := by
  by_cases h : v = 0 <;> simp [jsNumOr, h]

theorem d3Mean_of_ne_nil (l : List ℚ) (h : l ≠ []) :
    d3Mean l = some (l.sum / (l.length : ℚ)) := by
  match l with
  | [] => exact absurd rfl h
  | a :: t => rfl

/-! ### Claim C9: singleton categories are skipped by the cluster force -/

/-- C9: for a node `d` of the snapshot, its sector group is never empty (it
contains `d`); when the group has exactly one member the cluster force leaves
`d` unchanged (no centroid pull); when it has two or more members the force
keeps `d`'s position and nudges its velocity towards the group centroid
(the mean of the group's current positions), scaled by `0.15 * alpha`. -/
theorem cluster_force_singleton_skip (alpha : ℚ) (pts : List SimStock)
    (d : SimStock) (hd : d ∈ pts) :
    1 ≤ (pts.filter (fun p => p.sector == d.sector)).length ∧
    clusterForceStep alpha pts d ∈ clusterForce alpha pts ∧
    ((pts.filter (fun p => p.sector == d.sector)).length = 1 →
      clusterForceStep alpha pts d = d) ∧
    (2 ≤ (pts.filter (fun p => p.sector == d.sector)).length →
      clusterForceStep alpha pts d =
        { d with
          vx := some (jsNumOr d.vx 0 +
            (((pts.filter (fun p => p.sector == d.sector)).map (fun p => p.x)).sum /
                ((pts.filter (fun p => p.sector == d.sector)).length : ℚ) - d.x) *
              ((15 / 100) * alpha)),
          vy := some (jsNumOr d.vy 0 +
            (((pts.filter (fun p => p.sector == d.sector)).map (fun p => p.y)).sum /
                ((pts.filter (fun p => p.sector == d.sector)).length : ℚ) - d.y) *
              ((15 / 100) * alpha)) }) := by
  have hmem : d ∈ pts.filter (fun p => p.sector == d.sector) := by
    rw [List.mem_filter]
    exact ⟨hd, by simp⟩
  refine ⟨?_, List.mem_map_of_mem _ hd, ?_, ?_⟩
  · have : pts.filter (fun p => p.sector == d.sector) ≠ [] :=
      List.ne_nil_of_mem hmem
    have := List.length_pos.mpr this
    omega
  · intro h1
    unfold clusterForceStep
    rw [if_pos (le_of_eq h1)]
  · intro h2
    have hnotle : ¬ (pts.filter (fun p => p.sector == d.sector)).length ≤ 1 := by
      omega
    have hne : pts.filter (fun p => p.sector == d.sector) ≠ [] :=
      List.ne_nil_of_mem hmem
    have hmapne : ∀ f : SimStock → ℚ,
        (pts.filter (fun p => p.sector == d.sector)).map f ≠ [] := by
      intro f hmapnil
      exact hne (List.map_eq_nil_iff.mp hmapnil)
    unfold clusterForceStep
    rw [if_neg hnotle]
    rw [d3Mean_of_ne_nil _ (hmapne (fun p => p.x)),
        d3Mean_of_ne_nil _ (hmapne (fun p => p.y))]
    simp only [List.length_map, jsNumOr_zero_default]

/-- C9 witness: a three-node snapshot — two "Energy" nodes pull towards their
common centroid, the lone "Utilities" node is left untouched. -/
theorem cluster_force_singleton_skip_witness :
    clusterForceStep 1
        [{ symbol := "XOM", sector := "Energy", x := 0, y := 0,
           vx := none, vy := none },
         { symbol := "CVX", sector := "Energy", x := 10, y := 20,
           vx := none, vy := none },
         { symbol := "NEE", sector := "Utilities", x := 5, y := 5,
           vx := none, vy := none }]
        { symbol := "NEE", sector := "Utilities", x := 5, y := 5,
          vx := none, vy := none } =
      { symbol := "NEE", sector := "Utilities", x := 5, y := 5,
        vx := none, vy := none } := by
  have h := cluster_force_singleton_skip 1
      [{ symbol := "XOM", sector := "Energy", x := 0, y := 0,
         vx := none, vy := none },
       { symbol := "CVX", sector := "Energy", x := 10, y := 20,
         vx := none, vy := none },
       { symbol := "NEE", sector := "Utilities", x := 5, y := 5,
         vx := none, vy := none }]
      { symbol := "NEE", sector := "Utilities", x := 5, y := 5,
        vx := none, vy := none }
      (by decide)
  exact h.2.2.1 (by decide)

theorem simulationLoop_count {P : Type} (F : ℚ → P → P) :
    ∀ (n : ℕ) (s : SimState P), (simulationLoop F n s).2 = n := by
  intro n
  induction n with
  | zero => intro s; rfl
  | succ m ih => intro s; simp [simulationLoop, ih]

theorem simulationLoop_alpha {P : Type} (F : ℚ → P → P) :
    ∀ (n : ℕ) (s : SimState P),
      (simulationLoop F n s).1.alpha = (99 / 100) ^ n * s.alpha := by
  intro n
  induction n with
  | zero => intro s; simp [simulationLoop]
  | succ m ih =>
    intro s
    have htick : (d3SimTick F s).alpha = (99 / 100) * s.alpha := by
      unfold d3SimTick alphaDecaySetting
      ring
    simp only [simulationLoop, ih, htick]
    ring

/-! ### Claim C6: fixed 150-iteration budget with multiplicative alpha decay -/

/-- C6: for every snapshot (any node data, any forces) the convergence loop
executes exactly 150 ticks — there is no tolerance-based stopping rule — with
the energy starting at the configured 0.8 and decaying multiplicatively by the
factor 0.99 on every tick, ending at 0.8 · 0.99¹⁵⁰. -/
theorem simulation_fixed_iterations {P : Type} (F : ℚ → P → P) (pts : P) :
    (runSnapshotSimulation F pts).2 = 150 ∧
    initialAlphaSetting = 4 / 5 ∧
    (∀ s : SimState P, (d3SimTick F s).alpha = (99 / 100) * s.alpha) ∧
    (runSnapshotSimulation F pts).1.alpha = (99 / 100) ^ 150 * (4 / 5) := by
  refine ⟨?_, rfl, ?_, ?_⟩
  · unfold runSnapshotSimulation simulationIterationCount
    exact simulationLoop_count F 150 _
  · intro s
    unfold d3SimTick alphaDecaySetting
    ring
  · unfold runSnapshotSimulation simulationIterationCount
    rw [simulationLoop_alpha F 150 _]
    rfl

theorem digitChar_toNat_sub (m : ℕ) (h : m < 10) :
    (Nat.digitChar m).toNat - 48 = m := by
  interval_cases m <;> decide

theorem digitChar_ne_dash (m : ℕ) : Nat.digitChar m ≠ Char.ofNat 45 := by
  rcases Nat.lt_or_ge m 16 with h | h
  · interval_cases m <;> decide
  · unfold Nat.digitChar
    repeat rw [if_neg (by omega)]
    decide

theorem toDigitsCore_append :
    ∀ (fuel n : ℕ) (ds : List Char),
      Nat.toDigitsCore 10 fuel n ds = Nat.toDigitsCore 10 fuel n [] ++ ds := by
  intro fuel
  induction fuel with
  | zero => intro n ds; simp [Nat.toDigitsCore]
  | succ f ih =>
    intro n ds
    simp only [Nat.toDigitsCore]
    by_cases h : n / 10 = 0
    · simp [h]
    · rw [if_neg h, if_neg h,
          ih (n / 10) (Nat.digitChar (n % 10) :: ds),
          ih (n / 10) [Nat.digitChar (n % 10)]]
      simp

theorem decDecode_toDigitsCore :
    ∀ (fuel n : ℕ), n < 10 ^ fuel →
      decDecode (Nat.toDigitsCore 10 fuel n []) = n := by
  intro fuel
  induction fuel with
  | zero =>
    intro n hn
    interval_cases n
    rfl
  | succ f ih =>
    intro n hn
    simp only [Nat.toDigitsCore]
    by_cases h : n / 10 = 0
    · rw [if_pos h]
      have hlt : n < 10 := by
        rcases Nat.lt_or_ge n 10 with h10 | h10
        · exact h10
        · exact absurd h (by omega)
      unfold decDecode
      simp [List.foldl, digitChar_toNat_sub (n % 10) (Nat.mod_lt n (by norm_num))]
      omega
    · rw [if_neg h]
      rw [toDigitsCore_append f (n / 10) [Nat.digitChar (n % 10)]]
      unfold decDecode
      rw [List.foldl_append]
      have hdiv : n / 10 < 10 ^ f := by
        rw [Nat.div_lt_iff_lt_mul (by norm_num : 0 < 10)]
        calc n < 10 ^ (f + 1) := hn
          _ = 10 ^ f * 10 := by ring
      have := ih (n / 10) hdiv
      unfold decDecode at this
      rw [this]
      simp [List.foldl, digitChar_toNat_sub (n % 10) (Nat.mod_lt n (by norm_num))]
      omega

theorem decDecode_repr (n : ℕ) : decDecode (Nat.repr n).data = n := by
  have hdata : (Nat.repr n).data = Nat.toDigitsCore 10 (n + 1) n [] := rfl
  rw [hdata]
  apply decDecode_toDigitsCore
  calc n < 10 ^ n := by
        rcases Nat.eq_zero_or_pos n with h | _
        · subst h; norm_num
        · exact Nat.lt_pow_self (by norm_num) n
    _ ≤ 10 ^ (n + 1) := Nat.pow_le_pow_right (by norm_num) (Nat.le_succ n)

theorem repr_injective {a b : ℕ} (h : Nat.repr a = Nat.repr b) : a = b := by
  have := congrArg (fun s => decDecode s.data) h
  simpa [decDecode_repr] using this

theorem toDigitsCore_no_dash :
    ∀ (fuel n : ℕ) (ds : List Char), (∀ c ∈ ds, c ≠ Char.ofNat 45) →
      ∀ c ∈ Nat.toDigitsCore 10 fuel n ds, c ≠ Char.ofNat 45 := by
  intro fuel
  induction fuel with
  | zero => intro n ds hds; simpa [Nat.toDigitsCore] using hds
  | succ f ih =>
    intro n ds hds
    simp only [Nat.toDigitsCore]
    by_cases h : n / 10 = 0
    · rw [if_pos h]
      intro c hc
      rcases List.mem_cons.mp hc with hc | hc
      · subst hc; exact digitChar_ne_dash (n % 10)
      · exact hds c hc
    · rw [if_neg h]
      apply ih
      intro c hc
      rcases List.mem_cons.mp hc with hc | hc
      · subst hc; exact digitChar_ne_dash (n % 10)
      · exact hds c hc

theorem repr_no_dash (n : ℕ) : ∀ c ∈ (Nat.repr n).data, c ≠ Char.ofNat 45 := by
  have hdata : (Nat.repr n).data = Nat.toDigitsCore 10 (n + 1) n [] := rfl
  rw [hdata]
  exact toDigitsCore_no_dash (n + 1) n [] (by intro c hc; cases hc)

theorem takeWhile_append_stop (p : Char → Bool) :
    ∀ (l1 : List Char) (x : Char) (l2 : List Char),
      (∀ c ∈ l1, p c = true) → p x = false →
      (l1 ++ x :: l2).takeWhile p = l1 := by
  intro l1
  induction l1 with
  | nil => intro x l2 _ hx; simp [List.takeWhile_cons, hx]
  | cons a t ih =>
    intro x l2 h hx
    have ha : p a = true := h a (List.mem_cons_self a t)
    simp only [List.cons_append, List.takeWhile_cons, ha, if_true]
    rw [ih x l2 (fun c hc => h c (List.mem_cons_of_mem a hc)) hx]

/-- Composite keys with distinct time indices are distinct strings: the part
of the key before the first dash is exactly the decimal time index. -/
theorem compositeKey_time_injective {t t' : ℕ} {s s' : String}
    (h : compositeKey t s = compositeKey t' s') : t = t' := by
  have hd : (Nat.repr t).data ++ Char.ofNat 45 :: s.data =
      (Nat.repr t').data ++ Char.ofNat 45 :: s'.data := by
    have := congrArg String.data h
    simpa [compositeKey, String.data_append] using this
  have hp : ∀ u : ℕ, ((Nat.repr u).data ++ Char.ofNat 45 :: s.data).takeWhile
      (fun c => c != Char.ofNat 45) = (Nat.repr u).data := by
    intro u
    apply takeWhile_append_stop
    · intro c hc
      have := repr_no_dash u c hc
      simpa using this
    · simp
  have hp' : ((Nat.repr t').data ++ Char.ofNat 45 :: s'.data).takeWhile
      (fun c => c != Char.ofNat 45) = (Nat.repr t').data := by
    apply takeWhile_append_stop
    · intro c hc
      have := repr_no_dash t' c hc
      simpa using this
    · simp
  have hrepr : (Nat.repr t).data = (Nat.repr t').data := by
    rw [← hp t, hd, hp']
  have : Nat.repr t = Nat.repr t' := String.ext hrepr
  exact repr_injective this

theorem compositeKey_ne_of_time_ne {t t' : ℕ} {s s' : String} (h : t ≠ t') :
    compositeKey t s ≠ compositeKey t' s' :=
  fun heq => h (compositeKey_time_injective heq)

theorem lookup_none_of_keys_ne {α β : Type} [BEq α] [LawfulBEq α] (k : α) :
    ∀ m : List (α × β), (∀ e ∈ m, e.1 ≠ k) → m.lookup k = none := by
  intro m
  induction m with
  | nil => intro _; rfl
  | cons e rest ih =>
    intro h
    have he : e.1 ≠ k := h e (List.mem_cons_self e rest)
    have hbeq : (k == e.1) = false :=
      beq_eq_false_iff_ne.mpr (fun hh => he hh.symm)
    cases e with
    | mk ek eb =>
      simp only [List.lookup, hbeq]
      exact ih (fun x hx => h x (List.mem_cons_of_mem _ hx))

theorem lookup_append_of_none {α β : Type} [BEq α] (k : α) :
    ∀ l1 l2 : List (α × β), l1.lookup k = none →
      (l1 ++ l2).lookup k = l2.lookup k := by
  intro l1
  induction l1 with
  | nil => intro l2 _; rfl
  | cons e rest ih =>
    intro l2 h
    cases e with
    | mk ek eb =>
      by_cases hk : (k == ek) = true
      · exfalso
        simp only [List.lookup, hk] at h
        exact Option.noConfusion h
      · have hk' : (k == ek) = false := Bool.eq_false_iff.mpr hk
        simp only [List.lookup, hk'] at h
        simp only [List.cons_append, List.lookup, hk']
        exact ih l2 h

/-- When every cache entry was written by an earlier snapshot, every seed
lookup of the current snapshot misses. -/
theorem seedClone_miss (m : PositionMap) (t : ℕ) (snap : List StockRec)
    (hm : mapTimesBelow t m) :
    seedClone m t snap =
      snap.map (fun d => { stock := d, x := none, y := none }) := by
  unfold seedClone
  apply List.map_congr_left
  intro d _
  have hnone : m.lookup (compositeKey t d.symbol) = none := by
    apply lookup_none_of_keys_ne
    intro e he
    obtain ⟨t', sym, hkey, hlt⟩ := hm e he
    rw [hkey]
    exact compositeKey_ne_of_time_ne (by omega)
  simp [hnone]

theorem writeBack_times (t : ℕ) :
    ∀ (l : List (Seeded × CachePoint)) (m : PositionMap),
      mapTimesBelow (t + 1) m →
      mapTimesBelow (t + 1)
        (l.foldl (fun acc p => (compositeKey t p.1.stock.symbol, p.2) :: acc) m) := by
  intro l
  induction l with
  | nil => intro m hm; exact hm
  | cons p rest ih =>
    intro m hm
    simp only [List.foldl]
    apply ih
    intro e he
    rcases List.mem_cons.mp he with he | he
    · exact ⟨t, p.1.stock.symbol, by rw [he], Nat.lt_succ_self t⟩
    · exact hm e he

theorem prebakeStep_times (engine : Engine) (st : PassState) (t : ℕ)
    (snap : List StockRec) (hm : mapTimesBelow t st.positionMap) :
    mapTimesBelow (t + 1) (prebakeStep engine st t snap).positionMap := by
  unfold prebakeStep writeBack
  apply writeBack_times
  intro e he
  obtain ⟨t', sym, hkey, hlt⟩ := hm e he
  exact ⟨t', sym, hkey, by omega⟩

theorem prebakeAux_times (engine : Engine) :
    ∀ (data : List (List StockRec)) (t : ℕ) (st : PassState),
      mapTimesBelow t st.positionMap →
      mapTimesBelow (t + data.length) (prebakeAux engine t st data).positionMap := by
  intro data
  induction data with
  | nil => intro t st hm; simpa using hm
  | cons snap rest ih =>
    intro t st hm
    have := ih (t + 1) (prebakeStep engine st t snap)
      (prebakeStep_times engine st t snap hm)
    have harith : t + 1 + rest.length = t + (snap :: rest).length := by
      simp [List.length_cons]; omega
    rw [harith] at this
    exact this

theorem prebakeAux_seeds (engine : Engine) :
    ∀ (data : List (List StockRec)) (t : ℕ) (st : PassState),
      mapTimesBelow t st.positionMap →
      ∀ p ∈ (prebakeAux engine t st data).seedsLog,
        p ∈ st.seedsLog ∨ ∀ s ∈ p.2, s.x = none ∧ s.y = none := by
  intro data
  induction data with
  | nil => intro t st _ p hp; exact Or.inl hp
  | cons snap rest ih =>
    intro t st hm p hp
    have hm' : mapTimesBelow (t + 1) (prebakeStep engine st t snap).positionMap :=
      prebakeStep_times engine st t snap hm
    rcases ih (t + 1) (prebakeStep engine st t snap) hm' p hp with hin | hnone
    · have hlog : (prebakeStep engine st t snap).seedsLog =
          (t, seedClone st.positionMap t (stampTimeIndex t snap)) :: st.seedsLog := rfl
      rw [hlog] at hin
      rcases List.mem_cons.mp hin with heq | hin'
      · right
        subst heq
        intro s hs
        simp only at hs
        rw [seedClone_miss _ _ _ hm] at hs
        obtain ⟨d, _, hd⟩ := List.mem_map.mp hs
        rw [← hd]
        exact ⟨rfl, rfl⟩
      · exact Or.inl hin'
    · exact Or.inr hnone

theorem prebakeAux_positioned (engine : Engine) :
    ∀ (data : List (List StockRec)) (t : ℕ) (st : PassState),
      mapTimesBelow t st.positionMap →
      (∃ nw, (prebakeAux engine t st data).positioned = nw ++ st.positioned ∧
          ∀ p ∈ nw, t ≤ p.1) ∧
      (∀ (i : ℕ) (snap : List StockRec), data[i]? = some snap →
        (prebakeAux engine t st data).positioned.lookup (t + i) =
          some (engine (freshSeeds (t + i) snap))) := by
  intro data
  induction data with
  | nil =>
    intro t st _
    refine ⟨⟨[], rfl, by intro p hp; cases hp⟩, ?_⟩
    intro i snap hi
    simp at hi
  | cons snap rest ih =>
    intro t st hm
    have hm' : mapTimesBelow (t + 1) (prebakeStep engine st t snap).positionMap :=
      prebakeStep_times engine st t snap hm
    obtain ⟨⟨nw, hnw, hge⟩, hlook⟩ := ih (t + 1) (prebakeStep engine st t snap) hm'
    have hstep : (prebakeStep engine st t snap).positioned =
        (t, engine (seedClone st.positionMap t (stampTimeIndex t snap))) ::
          st.positioned := rfl
    have hout : seedClone st.positionMap t (stampTimeIndex t snap) =
        freshSeeds t snap := seedClone_miss _ _ _ hm
    constructor
    · refine ⟨nw ++ [(t, engine (freshSeeds t snap))], ?_, ?_⟩
      · show (prebakeAux engine (t + 1) (prebakeStep engine st t snap) rest).positioned = _
        rw [hnw, hstep, hout, List.append_assoc]
        rfl
      · intro p hp
        rcases List.mem_append.mp hp with hp | hp
        · have := hge p hp; omega
        · rcases List.mem_cons.mp hp with hp | hp
          · rw [hp]
          · cases hp
    · intro i isnap hi
      match i with
      | 0 =>
        simp only [List.getElem?_cons_zero, Option.some_inj] at hi
        subst hi
        show (prebakeAux engine (t + 1) (prebakeStep engine st t snap) rest).positioned.lookup
            (t + 0) = _
        rw [hnw, hstep, hout]
        have hnwnone : nw.lookup (t + 0) = none := by
          apply lookup_none_of_keys_ne
          intro e he
          have := hge e he
          omega
        rw [lookup_append_of_none _ _ _ hnwnone]
        have : ((t + 0 : ℕ) == t) = true := by simp
        simp [List.lookup, this]
      | j + 1 =>
        simp only [List.getElem?_cons_succ] at hi
        have := hlook j isnap hi
        have harith : t + 1 + j = t + (j + 1) := by omega
        rw [harith] at this
        exact this

/-! ### Claim C1: cache isolation under the composite key -/

/-- C1: the continuity cache never leaks across snapshots.  First, a cache
binding written under the composite key of any other time index `u` is
invisible to the seeding of snapshot `t`: adding it to the cache leaves
`seedClone` for `t` unchanged, because every seed read uses the composite key
of `t` itself and keys of distinct time indices are distinct strings.  Second,
every binding the pre-bake pass ever stores is keyed by a composite
`(timeIndex, symbol)` key (with a time index below the snapshot count) — the
pass never reads or writes a bare-symbol key. -/
theorem cache_isolation_composite_key (engine : Engine)
    (data : List (List StockRec)) (m : PositionMap) (t u : ℕ) (id : String)
    (p : CachePoint) (snap : List StockRec) (hne : u ≠ t) :
    seedClone ((compositeKey u id, p) :: m) t snap = seedClone m t snap ∧
    mapTimesBelow data.length (prebakePass engine data).positionMap := by
  constructor
  · unfold seedClone
    apply List.map_congr_left
    intro d _
    have hk : ((compositeKey t d.symbol == compositeKey u id) : Bool) = false :=
      beq_eq_false_iff_ne.mpr (compositeKey_ne_of_time_ne (fun h => hne h.symm))
    simp [List.lookup, hk]
  · have := prebakeAux_times engine data 0
      { positionMap := [], positioned := [], seedsLog := [] }
      (by intro e he; cases he)
    simpa [prebakePass] using this

/-- C1 witness: writing `(0, "AAPL") → (10, 20)` into the cache is invisible
to the seeding of snapshot 1. -/
theorem cache_isolation_composite_key_witness :
    seedClone [(compositeKey 0 "AAPL", ((10 : ℚ), (20 : ℚ)))] 1
        [{ symbol := "AAPL", sector := "Information Technology",
           marketCap := 2700, percentChange := 2, _timeIndex := 1 }] =
      seedClone [] 1
        [{ symbol := "AAPL", sector := "Information Technology",
           marketCap := 2700, percentChange := 2, _timeIndex := 1 }] :=
  (cache_isolation_composite_key (fun _ => []) [] [] 1 0 "AAPL" (10, 20)
      [{ symbol := "AAPL", sector := "Information Technology",
         marketCap := 2700, percentChange := 2, _timeIndex := 1 }]
      (by decide)).1

/-! ### Claim C10: within one pass every seed lookup misses -/

/-- C10: the pre-bake pass builds its cache fresh and writes the entry for
`(t, id)` only after snapshot `t`'s simulation has run, while seeding for
snapshot `t` reads only `(t, id)` keys; hence inside a single pass every seed
lookup misses and every snapshot enters its simulation with `undefined`
(`none`) start positions — seeding never actually supplies a position. -/
theorem prebake_seed_lookups_miss (engine : Engine)
    (data : List (List StockRec)) (t : ℕ) (seeds : List Seeded)
    (hmem : (t, seeds) ∈ (prebakePass engine data).seedsLog) :
    ∀ s ∈ seeds, s.x = none ∧ s.y = none := by
  have := prebakeAux_seeds engine data 0
    { positionMap := [], positioned := [], seedsLog := [] }
    (by intro e he; cases he) (t, seeds) hmem
  rcases this with hin | hnone
  · cases hin
  · exact hnone

/-- C10 witness: a two-snapshot run of the pass with a constant engine; the
seeds logged for snapshot 1 (computed after snapshot 0 populated the cache)
are still unseeded. -/
theorem prebake_seed_lookups_miss_witness :
    ({ stock := { symbol := "AAPL", sector := "Information Technology",
                  marketCap := 2700, percentChange := 2, _timeIndex := 1 },
       x := none, y := none } : Seeded).x = none ∧
    ({ stock := { symbol := "AAPL", sector := "Information Technology",
                  marketCap := 2700, percentChange := 2, _timeIndex := 1 },
       x := none, y := none } : Seeded).y = none :=
  prebake_seed_lookups_miss (fun seeds => seeds.map (fun _ => ((7 : ℚ), (8 : ℚ))))
    [[{ symbol := "AAPL", sector := "Information Technology",
        marketCap := 2700, percentChange := 2, _timeIndex := 0 }],
     [{ symbol := "AAPL", sector := "Information Technology",
        marketCap := 2700, percentChange := 2, _timeIndex := 1 }]] 1
    [{ stock := { symbol := "AAPL", sector := "Information Technology",
                  marketCap := 2700, percentChange := 2, _timeIndex := 1 },
       x := none, y := none }]
    (by decide)
    { stock := { symbol := "AAPL", sector := "Information Technology",
                 marketCap := 2700, percentChange := 2, _timeIndex := 1 },
      x := none, y := none }
    (by decide)

/-! ### Claim C4: the layout pass is pure per snapshot -/

/-- C4: the pass leaves its input snapshots unchanged — the only write it
performs on them, `stock._timeIndex = timeIndex`, re-writes the value the
snapshot builder already stored (`_timeIndex: i`), so the stamped data equals
the input — and the positioned layout stored for each time index `t` is a
function of snapshot `t` alone: it equals the engine run on snapshot `t`
seeded from an empty cache, so no state surviving from any other snapshot
influences it. -/
theorem prebake_pure_per_snapshot (engine : Engine)
    (data : List (List StockRec))
    (hstamp : ∀ (t : ℕ) (snap : List StockRec), data[t]? = some snap →
      ∀ d ∈ snap, d._timeIndex = t) :
    stampAll 0 data = data ∧
    (∀ (t : ℕ) (snap : List StockRec), data[t]? = some snap →
      (prebakePass engine data).positioned.lookup t =
        some (engine (seedClone [] t (stampTimeIndex t snap)))) := by
  constructor
  · have key : ∀ (l : List (List StockRec)) (t : ℕ),
        (∀ (i : ℕ) (snap : List StockRec), l[i]? = some snap →
          ∀ d ∈ snap, d._timeIndex = t + i) → stampAll t l = l := by
      intro l
      induction l with
      | nil => intro t _; rfl
      | cons snap rest ih =>
        intro t h
        have hsnap : stampTimeIndex t snap = snap := by
          unfold stampTimeIndex
          have : ∀ d ∈ snap, ({ d with _timeIndex := t } : StockRec) = d := by
            intro d hd
            have hdt : d._timeIndex = t + 0 :=
              h 0 snap (by simp) d hd
            cases d
            simp at hdt
            simp [hdt]
          calc snap.map (fun d => { d with _timeIndex := t })
              = snap.map id := List.map_congr_left this
            _ = snap := List.map_id snap
        show stampTimeIndex t snap :: stampAll (t + 1) rest = snap :: rest
        rw [hsnap, ih (t + 1) (fun i s hi d hd => by
          have := h (i + 1) s (by simpa using hi) d hd
          omega)]
    exact key data 0 (by intro i snap hi d hd; simpa using hstamp i snap hi d hd)
  · intro t snap ht
    have hmain := (prebakeAux_positioned engine data 0
      { positionMap := [], positioned := [], seedsLog := [] }
      (by intro e he; cases he)).2 t snap ht
    have hempty : seedClone [] t (stampTimeIndex t snap) = freshSeeds t snap := by
      have : mapTimesBelow t ([] : PositionMap) := by intro e he; cases he
      exact seedClone_miss [] t (stampTimeIndex t snap) this
    rw [hempty]
    simpa [prebakePass] using hmain

/-- C4 witness: a two-snapshot dataset with correctly stamped records; the
stamping pass returns the input unchanged. -/
theorem prebake_pure_per_snapshot_witness :
    stampAll 0
        [[{ symbol := "AAPL", sector := "Information Technology",
            marketCap := 2700, percentChange := 2, _timeIndex := 0 }],
         [{ symbol := "AAPL", sector := "Information Technology",
            marketCap := 2700, percentChange := 2, _timeIndex := 1 }]] =
      [[{ symbol := "AAPL", sector := "Information Technology",
          marketCap := 2700, percentChange := 2, _timeIndex := 0 }],
       [{ symbol := "AAPL", sector := "Information Technology",
          marketCap := 2700, percentChange := 2, _timeIndex := 1 }]] :=
  (prebake_pure_per_snapshot (fun seeds => seeds.map (fun _ => ((7 : ℚ), (8 : ℚ))))
      [[{ symbol := "AAPL", sector := "Information Technology",
          marketCap := 2700, percentChange := 2, _timeIndex := 0 }],
       [{ symbol := "AAPL", sector := "Information Technology",
          marketCap := 2700, percentChange := 2, _timeIndex := 1 }]]
      (by
        intro t snap ht d hd
        match t with
        | 0 =>
          simp only [List.getElem?_cons_zero, Option.some_inj] at ht
          subst ht
          simp only [List.mem_singleton] at hd
          subst hd
          rfl
        | 1 =>
          simp only [List.getElem?_cons_succ, List.getElem?_cons_zero,
            Option.some_inj] at ht
          subst ht
          simp only [List.mem_singleton] at hd
          subst hd
          rfl
        | n + 2 => simp at ht)).1

end StockSwarm
